import Mathlib

/-!
# `truffle-config.js`

The repository is one CommonJS module whose body is the single statement
`module.exports = { networks: …, compilers: …, plugins: […] };`.

The embedding has three layers:

* `JsValue`: the JavaScript values an object literal of this file can denote
  (string literals, numeric literals, array literals, object literals with their
  own properties in source order), with the read operations a consumer of the
  exported object performs on it (`get` for `o.k`, `index` for `a[i]`, `keys`
  for `Object.keys`, `length`, `typeof`, `isInteger`).
* `module.exports`: the literal of the file, transcribed property by property.
* `program`: the module body as a list of statements, run by `run` over the
  world outside the module and the module record the loader hands in.
-/

namespace TruffleConfig

/-! ## JavaScript values -/

/-- The values denoted by the literals of the file. A numeric literal denotes its
exact decimal value; an object literal denotes the list of its own properties in
source order. No object literal of the file repeats a property name
(`distinctKeys`), so reading the first entry of a name and reading the last
agree. -/
inductive JsValue where
  | str : String → JsValue
  | num : ℚ → JsValue
  | arr : List JsValue → JsValue
  | obj : List (String × JsValue) → JsValue

namespace JsValue

/-- Property read `v.k` (or `v[k]` with a string key): the value of the own
property `k` of an object, `none` (JavaScript `undefined`) otherwise. -/
def get : JsValue → String → Option JsValue
  | obj fields, k => fields.lookup k
  | _, _ => none

/-- Element read `v[i]` with a numeric index on an array. -/
def index : JsValue → Nat → Option JsValue
  | arr xs, i => xs.get? i
  | _, _ => none

/-- The names of the own properties, in order: `Object.keys(v)` on an object. -/
def keys : JsValue → List String
  | obj fields => fields.map Prod.fst
  | _ => []

/-- The `length` of an array. -/
def length : JsValue → Option Nat
  | arr xs => some xs.length
  | _ => none

/-- The elements of an array, in order. -/
def elements : JsValue → Option (List JsValue)
  | arr xs => some xs
  | _ => none

/-- The result of `typeof v`. -/
def typeof : JsValue → String
  | str _ => "string"
  | num _ => "number"
  | arr _ => "object"
  | obj _ => "object"

/-- The test `Array.isArray(v)`. -/
def isArray : JsValue → Bool
  | arr _ => true
  | _ => false

/-- The test `Number.isInteger(v)`: a number with no fractional part. -/
def isInteger : JsValue → Bool
  | num q => q.den == 1
  | _ => false

end JsValue

/-- One step of a path into a value: a property name or an array index. -/
inductive Seg where
  | key : String → Seg
  | idx : Nat → Seg
  deriving DecidableEq

namespace JsValue

/-- Every leaf of a value together with the path that reaches it from the root,
in source order. A leaf is a value with nothing below it: a string, a number, and
also an empty array or an empty object, so that a field holding `{}` or `[]` is
listed like any other. -/
def leaves : JsValue → List (List Seg × JsValue)
  | str s => [([], str s)]
  | num q => [([], num q)]
  | arr [] => [([], arr [])]
  | arr (x :: xs) => goArr 0 (x :: xs)
  | obj [] => [([], obj [])]
  | obj (f :: fields) => goObj (f :: fields)
where
  /-- Leaves below the elements of an array literal, from index `i` on. -/
  goArr (i : Nat) : List JsValue → List (List Seg × JsValue)
    | [] => []
    | x :: xs => (leaves x).map (fun p => (Seg.idx i :: p.1, p.2)) ++ goArr (i + 1) xs
  /-- Leaves below the properties of an object literal. -/
  goObj : List (String × JsValue) → List (List Seg × JsValue)
    | [] => []
    | (k, x) :: rest => (leaves x).map (fun p => (Seg.key k :: p.1, p.2)) ++ goObj rest

/-- The path of every field of a value, at every depth: each property of each
object and each element of each array, in source order, whatever it holds. -/
def fieldPaths : JsValue → List (List Seg)
  | str _ => []
  | num _ => []
  | arr xs => goArr 0 xs
  | obj fields => goObj fields
where
  /-- Paths at and below the elements of an array literal, from index `i` on. -/
  goArr (i : Nat) : List JsValue → List (List Seg)
    | [] => []
    | x :: xs =>
        [Seg.idx i] :: (fieldPaths x).map (fun p => Seg.idx i :: p) ++ goArr (i + 1) xs
  /-- Paths at and below the properties of an object literal. -/
  goObj : List (String × JsValue) → List (List Seg)
    | [] => []
    | (k, x) :: rest =>
        [Seg.key k] :: (fieldPaths x).map (fun p => Seg.key k :: p) ++ goObj rest

/-- No object literal inside the value writes the same property name twice. -/
def distinctKeys : JsValue → Bool
  | str _ => true
  | num _ => true
  | arr xs => goArr xs
  | obj fields => decide (fields.map Prod.fst).Nodup && goObj fields
where
  /-- The test on every element of an array literal. -/
  goArr : List JsValue → Bool
    | [] => true
    | x :: xs => distinctKeys x && goArr xs
  /-- The test on every property value of an object literal. -/
  goObj : List (String × JsValue) → Bool
    | [] => true
    | (_, x) :: rest => distinctKeys x && goObj rest

end JsValue

/-! ## The module -/

open JsValue in
/-- The object literal assigned to `module.exports` in `truffle-config.js`. -/
def module.exports : JsValue :=
  obj [
    ("networks", obj [
      ("development", obj [
        ("host", str "localhost"),
        ("port", num 7545),
        ("network_id", str "*")
      ])
    ]),
    ("compilers", obj [
      ("solc", obj [
        ("version", str "0.6.2")
      ])
    ]),
    ("plugins", arr [
      str "truffle-contract-size"
    ])
  ]

/-- Read along a path of property names: `v.k₁.k₂.…`. -/
def JsValue.getPath : JsValue → List String → Option JsValue
  | v, [] => some v
  | v, k :: ks => (v.get k).bind (fun w => getPath w ks)

/-! ## Loading

The file as a program. An expression of a module can be a literal, and it can
also read the world outside the module: an environment variable, a command-line
argument, a file. A statement can assign `module.exports`, and it can also write
the world. The semantics below gives every one of these forms its effect; which
of them the file uses is then a fact about the file. -/

/-- What exists outside the module when it is loaded: the environment variables,
the command-line arguments and the persisted state (files by name). -/
structure World where
  env : List (String × String)
  argv : List String
  files : List (String × String)
  deriving DecidableEq

/-- The module record the loader passes to the module body. -/
structure Module where
  id : String
  filename : String
  exports : JsValue

/-- Expressions: the four literal forms, and the three reads of the world
`process.env.NAME`, `process.argv[i]` and `fs.readFileSync(name, "utf8")`. -/
inductive Expr where
  | string : String → Expr
  | number : ℚ → Expr
  | array : List Expr → Expr
  | object : List (String × Expr) → Expr
  | env : String → Expr
  | arg : Nat → Expr
  | file : String → Expr

namespace Expr

/-- The value of an expression in a world; `none` when a read finds nothing (an
unset variable, a missing argument, a missing file). -/
def eval (w : World) : Expr → Option JsValue
  | string s => some (JsValue.str s)
  | number q => some (JsValue.num q)
  | array es => (evalList es).map JsValue.arr
  | object fields => (evalFields fields).map JsValue.obj
  | env name => (w.env.lookup name).map JsValue.str
  | arg i => (w.argv.get? i).map JsValue.str
  | file name => (w.files.lookup name).map JsValue.str
where
  /-- The values of the elements of an array literal, left to right. -/
  evalList : List Expr → Option (List JsValue)
    | [] => some []
    | e :: es => (eval w e).bind (fun v => (evalList es).map (fun vs => v :: vs))
  /-- The values of the properties of an object literal, in source order. -/
  evalFields : List (String × Expr) → Option (List (String × JsValue))
    | [] => some []
    | (k, e) :: rest =>
        (eval w e).bind (fun v => (evalFields rest).map (fun vs => (k, v) :: vs))

/-- An expression built of literal forms only: it contains no read of the
world. -/
def isLiteral : Expr → Bool
  | string _ => true
  | number _ => true
  | array es => allList es
  | object fields => allFields fields
  | env _ => false
  | arg _ => false
  | file _ => false
where
  /-- The test on every element of an array literal. -/
  allList : List Expr → Bool
    | [] => true
    | e :: es => isLiteral e && allList es
  /-- The test on every property value of an object literal. -/
  allFields : List (String × Expr) → Bool
    | [] => true
    | (_, e) :: rest => isLiteral e && allFields rest

end Expr

/-- Statements: the assignment `module.exports = e`, and the two writes of the
world `process.env.NAME = e` and `fs.writeFileSync(name, e)`. -/
inductive Stmt where
  | assignExports : Expr → Stmt
  | assignEnv : String → Expr → Stmt
  | writeFile : String → Expr → Stmt

/-- Set the entry of `name` in a table of named strings. -/
def setEntry (name value : String) (table : List (String × String)) :
    List (String × String) :=
  (name, value) :: table.filter (fun entry => entry.1 ≠ name)

/-- The effect of one statement on the world and the module record; `none` when
its expression has no value, or when a write is given a value that is not a
string. -/
def Stmt.exec : Stmt → World × Module → Option (World × Module)
  | Stmt.assignExports e, (w, m) =>
      (e.eval w).map (fun v => (w, { m with exports := v }))
  | Stmt.assignEnv name e, (w, m) =>
      match e.eval w with
      | some (JsValue.str s) => some ({ w with env := setEntry name s w.env }, m)
      | _ => none
  | Stmt.writeFile name e, (w, m) =>
      match e.eval w with
      | some (JsValue.str s) => some ({ w with files := setEntry name s w.files }, m)
      | _ => none

/-- The effect of a module body: its statements one after the other. -/
def run : List Stmt → World × Module → Option (World × Module)
  | [], state => some state
  | stmt :: rest, state => (stmt.exec state).bind (run rest)

open Expr in
/-- The right-hand side of the one statement of `truffle-config.js`. -/
def configExpr : Expr :=
  object [
    ("networks", object [
      ("development", object [
        ("host", string "localhost"),
        ("port", number 7545),
        ("network_id", string "*")
      ])
    ]),
    ("compilers", object [
      ("solc", object [
        ("version", string "0.6.2")
      ])
    ]),
    ("plugins", array [
      string "truffle-contract-size"
    ])
  ]

/-- The body of `truffle-config.js`: the one statement
`module.exports = { … };`. -/
def program : List Stmt :=
  [Stmt.assignExports configExpr]

/-- The module record the loader creates for the file before it runs the body:
its `exports` is the empty object. -/
def freshModule : Module :=
  { id := ".", filename := "truffle-config.js", exports := JsValue.obj [] }

/-- Loading the file in a world: the loader runs the body on a fresh module
record and hands back the `exports` slot, together with the world as the body
left it. -/
def load (w : World) : Option (World × JsValue) :=
  (run program (w, freshModule)).map (fun state => (state.1, state.2.exports))

/-! ## Schema and version pins -/

/-- The five field paths of the configuration schema, each with the type test of
its row: `networks.<name>.host` string, `networks.<name>.port` integer,
`networks.<name>.network_id` string, `compilers.solc.version` string, and the
elements of `plugins` strings. -/
def recognizedField : List Seg → JsValue → Bool
  | [Seg.key a, Seg.key b, Seg.key c], v =>
      if a = "networks" ∧ c = "host" then v.typeof == "string"
      else if a = "networks" ∧ c = "port" then v.isInteger
      else if a = "networks" ∧ c = "network_id" then v.typeof == "string"
      else if a = "compilers" ∧ b = "solc" ∧ c = "version" then v.typeof == "string"
      else false
  | [Seg.key a, Seg.idx _], v => decide (a = "plugins") && v.typeof == "string"
  | _, _ => false

/-- Cut a list of characters at every occurrence of `sep`. -/
def splitAt (sep : Char) : List Char → List (List Char)
  | [] => [[]]
  | c :: cs =>
      if c = sep then [] :: splitAt sep cs
      else
        match splitAt sep cs with
        | [] => [[c]]
        | part :: parts => (c :: part) :: parts

/-- A non-empty run of decimal digits. -/
def isNumeral (cs : List Char) : Bool :=
  !cs.isEmpty && cs.all Char.isDigit

/-- The number a run of decimal digits writes. -/
def numeralValue (cs : List Char) : Nat :=
  cs.foldl (fun n c => 10 * n + (c.toNat - 48)) 0

/-- The one version a fixed pin `major.minor.patch` denotes: three numerals
separated by dots and nothing else. -/
def parsePin (s : String) : Option (Nat × Nat × Nat) :=
  match splitAt '.' s.data with
  | [a, b, c] =>
      if isNumeral a && isNumeral b && isNumeral c then
        some (numeralValue a, numeralValue b, numeralValue c)
      else none
  | _ => none

/-- The characters a version range, a wildcard or white space would bring in. -/
def rangeChars : List Char :=
  ['^', '~', '<', '>', '=', '*', 'x', 'X', '-', '|', ' ', '\t', '\n', '\r']

/-! ## Lemmas on property reads -/

/-- A property read succeeds exactly on the names `keys` lists. -/
theorem JsValue.get_isSome_iff_mem_keys (v : JsValue) (k : String) :
    (v.get k).isSome = true ↔ k ∈ v.keys := by
  cases v with
  | str s => simp [JsValue.get, JsValue.keys]
  | num q => simp [JsValue.get, JsValue.keys]
  | arr xs => simp [JsValue.get, JsValue.keys]
  | obj fields =>
    simp only [JsValue.get, JsValue.keys]
    induction fields with
    | nil => simp [List.lookup]
    | cons f rest ih =>
      obtain ⟨name, x⟩ := f
      by_cases hk : k = name
      · subst hk
        simp [List.lookup]
      · have hb : (k == name) = false := by simpa using hk
        simp [List.lookup, hb, hk, ih]

/-- Property names are distinct in every object literal of the file. -/
theorem exports_distinctKeys : module.exports.distinctKeys = true := by decide

/-- A property read that yields a value names one of the `keys`. -/
theorem JsValue.mem_keys_of_get_eq_some {v x : JsValue} {k : String}
    (h : v.get k = some x) : k ∈ v.keys :=
  (JsValue.get_isSome_iff_mem_keys v k).mp (by simp [h])

/-! ## Lemmas on loading -/

mutual
/-- A literal expression has the same value in any two worlds. -/
theorem Expr.eval_eq_of_isLiteral (w₁ w₂ : World) :
    ∀ e : Expr, e.isLiteral = true → e.eval w₁ = e.eval w₂
  | Expr.string _, _ => rfl
  | Expr.number _, _ => rfl
  | Expr.array es, h => by
      simp only [Expr.eval]
      rw [Expr.evalList_eq_of_allList w₁ w₂ es (by simpa [Expr.isLiteral] using h)]
  | Expr.object fields, h => by
      simp only [Expr.eval]
      rw [Expr.evalFields_eq_of_allFields w₁ w₂ fields (by simpa [Expr.isLiteral] using h)]
  | Expr.env _, h => by simp [Expr.isLiteral] at h
  | Expr.arg _, h => by simp [Expr.isLiteral] at h
  | Expr.file _, h => by simp [Expr.isLiteral] at h
/-- The elements of a literal array have the same values in any two worlds. -/
theorem Expr.evalList_eq_of_allList (w₁ w₂ : World) :
    ∀ es : List Expr, Expr.isLiteral.allList es = true →
      Expr.eval.evalList w₁ es = Expr.eval.evalList w₂ es
  | [], _ => rfl
  | e :: es, h => by
      have h2 : e.isLiteral = true ∧ Expr.isLiteral.allList es = true := by
        simpa [Expr.isLiteral.allList] using h
      simp only [Expr.eval.evalList]
      rw [Expr.eval_eq_of_isLiteral w₁ w₂ e h2.1, Expr.evalList_eq_of_allList w₁ w₂ es h2.2]
/-- The properties of a literal object have the same values in any two worlds. -/
theorem Expr.evalFields_eq_of_allFields (w₁ w₂ : World) :
    ∀ fields : List (String × Expr), Expr.isLiteral.allFields fields = true →
      Expr.eval.evalFields w₁ fields = Expr.eval.evalFields w₂ fields
  | [], _ => rfl
  | (k, e) :: rest, h => by
      have h2 : e.isLiteral = true ∧ Expr.isLiteral.allFields rest = true := by
        simpa [Expr.isLiteral.allFields] using h
      simp only [Expr.eval.evalFields]
      rw [Expr.eval_eq_of_isLiteral w₁ w₂ e h2.1,
        Expr.evalFields_eq_of_allFields w₁ w₂ rest h2.2]
end

/-- The literal of the file has the value `module.exports` in every world. -/
theorem configExpr_eval (w : World) : configExpr.eval w = some module.exports :=
  (Expr.eval_eq_of_isLiteral w ⟨[], [], []⟩ configExpr (by decide)).trans rfl

/-- A read of the world does depend on the world: `process.env.PORT` has a value
where the variable is set and none where it is not. -/
theorem Expr.eval_env_depends_on_world :
    ((Expr.env "PORT").eval ⟨[("PORT", "8545")], [], []⟩).isSome = true
    ∧ ((Expr.env "PORT").eval ⟨[], [], []⟩).isSome = false := by
  decide

/-- A write of the world does change the world: after `process.env.PORT = "8545"`
the variable is set. -/
theorem Stmt.exec_assignEnv_changes_world :
    ((Stmt.assignEnv "PORT" (Expr.string "8545")).exec (⟨[], [], []⟩, freshModule)).map
      (fun state => state.1.env) = some [("PORT", "8545")] := by
  decide

/-! ## The exported object -/

/-- C1: the exported object holds `"localhost"` at `networks.development.host`,
the integer `7545` at `networks.development.port`, `"*"` at
`networks.development.network_id`, `"0.6.2"` at `compilers.solc.version`, and at
`plugins` an array of length exactly 1 whose element 0 is
`"truffle-contract-size"`. -/
theorem exports_values :
    module.exports.getPath ["networks", "development", "host"]
        = some (JsValue.str "localhost")
    ∧ (∃ port, module.exports.getPath ["networks", "development", "port"] = some port
        ∧ port = JsValue.num 7545
        ∧ port.isInteger = true)
    ∧ module.exports.getPath ["networks", "development", "network_id"]
        = some (JsValue.str "*")
    ∧ module.exports.getPath ["compilers", "solc", "version"]
        = some (JsValue.str "0.6.2")
    ∧ ∃ plugins, module.exports.get "plugins" = some plugins
        ∧ plugins.isArray = true
        ∧ plugins.length = some 1
        ∧ plugins.index 0 = some (JsValue.str "truffle-contract-size") :=
  ⟨rfl, ⟨_, rfl, rfl, by decide⟩, rfl, rfl, _, rfl, rfl, rfl, rfl⟩

/-- C3: the exported object is a plain object with exactly three own
properties, `networks`, `compilers` and `plugins`, and a read of any other name
finds nothing. -/
theorem exports_top_level_keys :
    module.exports.typeof = "object"
    ∧ module.exports.isArray = false
    ∧ module.exports.keys = ["networks", "compilers", "plugins"]
    ∧ module.exports.keys.length = 3
    ∧ ∀ k, (module.exports.get k).isSome = true
        ↔ k = "networks" ∨ k = "compilers" ∨ k = "plugins" := by
  refine ⟨rfl, rfl, rfl, rfl, fun k => ?_⟩
  rw [JsValue.get_isSome_iff_mem_keys]
  have hk : module.exports.keys = ["networks", "compilers", "plugins"] := rfl
  simp [hk]

/-- C4: the exported object conforms to the schema. Every network profile present
under `networks` (there is one) has a string `host`, an integer `port` and a string
`network_id`, and no property of another name; `compilers.solc.version` is a
string; `plugins` is an array whose elements are all strings. No unrecognised
field is present: every leaf of the object, an empty object or array counting as
a leaf, lies on one of the five recognised field paths with the type of its row;
the fields of the object, at every depth, are exactly the ten listed; and each
of them lies on the way to a recognised leaf. -/
theorem exports_conforms_to_schema :
    (∃ networks, module.exports.get "networks" = some networks
        ∧ networks.keys ≠ []
        ∧ ∀ name profile, networks.get name = some profile →
            (∃ host, profile.get "host" = some host ∧ host.typeof = "string")
            ∧ (∃ port, profile.get "port" = some port ∧ port.isInteger = true)
            ∧ (∃ id, profile.get "network_id" = some id ∧ id.typeof = "string")
            ∧ ∀ k ∈ profile.keys, k = "host" ∨ k = "port" ∨ k = "network_id")
    ∧ (∃ version, module.exports.getPath ["compilers", "solc", "version"] = some version
        ∧ version.typeof = "string")
    ∧ (∃ plugins, (module.exports.get "plugins").bind JsValue.elements = some plugins
        ∧ ∀ p ∈ plugins, p.typeof = "string")
    ∧ (∀ leaf ∈ module.exports.leaves, recognizedField leaf.1 leaf.2 = true)
    ∧ module.exports.leaves.map Prod.fst =
        [ [Seg.key "networks", Seg.key "development", Seg.key "host"],
          [Seg.key "networks", Seg.key "development", Seg.key "port"],
          [Seg.key "networks", Seg.key "development", Seg.key "network_id"],
          [Seg.key "compilers", Seg.key "solc", Seg.key "version"],
          [Seg.key "plugins", Seg.idx 0] ]
    ∧ module.exports.fieldPaths =
        [ [Seg.key "networks"],
          [Seg.key "networks", Seg.key "development"],
          [Seg.key "networks", Seg.key "development", Seg.key "host"],
          [Seg.key "networks", Seg.key "development", Seg.key "port"],
          [Seg.key "networks", Seg.key "development", Seg.key "network_id"],
          [Seg.key "compilers"],
          [Seg.key "compilers", Seg.key "solc"],
          [Seg.key "compilers", Seg.key "solc", Seg.key "version"],
          [Seg.key "plugins"],
          [Seg.key "plugins", Seg.idx 0] ]
    ∧ (∀ p ∈ module.exports.fieldPaths, ∃ leaf ∈ module.exports.leaves,
        recognizedField leaf.1 leaf.2 = true ∧ p <+: leaf.1)
    ∧ (∀ k ∈ module.exports.keys, k = "networks" ∨ k = "compilers" ∨ k = "plugins")
    ∧ (∀ k ∈ ((module.exports.getPath ["compilers"]).map JsValue.keys).getD [], k = "solc")
    ∧ (∀ k ∈ ((module.exports.getPath ["compilers", "solc"]).map JsValue.keys).getD [],
        k = "version") := by
  refine ⟨⟨_, rfl, by decide, ?_⟩, ⟨_, rfl, rfl⟩, ⟨_, rfl, ?_⟩, by decide, by decide,
    by decide, by decide, by decide, by decide, by decide⟩
  · intro name profile h
    have hmem := JsValue.mem_keys_of_get_eq_some h
    have hname : name = "development" := by simpa [JsValue.keys] using hmem
    subst hname
    obtain rfl := Option.some.inj h
    exact ⟨⟨_, rfl, rfl⟩, ⟨_, rfl, by decide⟩, ⟨_, rfl, rfl⟩, by decide⟩
  · intro p hp
    obtain rfl : p = JsValue.str "truffle-contract-size" := by simpa using hp
    rfl

/-- C5: `compilers` has the single property `solc`, `solc` has the single
property `version`, and the version is the string `"0.6.2"`: cut at the dots it
gives exactly three parts, each a non-empty run of decimal digits; none of its
characters is a range operator, a wildcard or white space; and it denotes the
one version 0.6.2. -/
theorem compilers_solc_version_pin :
    (module.exports.getPath ["compilers"]).map JsValue.keys = some ["solc"]
    ∧ (module.exports.getPath ["compilers", "solc"]).map JsValue.keys = some ["version"]
    ∧ ∃ v, module.exports.getPath ["compilers", "solc", "version"] = some (JsValue.str v)
        ∧ v = "0.6.2"
        ∧ (splitAt '.' v.data).length = 3
        ∧ (∀ part ∈ splitAt '.' v.data, part ≠ [] ∧ ∀ c ∈ part, c.isDigit = true)
        ∧ (∀ c ∈ v.data, c.isDigit = true ∨ c = '.')
        ∧ (∀ c ∈ v.data, c ∉ rangeChars ∧ c.isWhitespace = false)
        ∧ parsePin v = some (0, 6, 2) :=
  ⟨rfl, rfl, "0.6.2", rfl, rfl, by decide, by decide, by decide, by decide, by decide⟩

/-- C6: `networks` has exactly one property, `development`; that profile has
exactly the three properties `host`, `port` and `network_id`; `host` is a string,
`port` is a number, and `network_id` is the wildcard string `"*"`. -/
theorem networks_single_development_profile :
    (module.exports.getPath ["networks"]).map JsValue.keys = some ["development"]
    ∧ (∀ name, ((module.exports.getPath ["networks"]).bind
          (fun networks => networks.get name)).isSome = true ↔ name = "development")
    ∧ ∃ profile, module.exports.getPath ["networks", "development"] = some profile
        ∧ profile.keys = ["host", "port", "network_id"]
        ∧ profile.keys.length = 3
        ∧ (profile.get "host").map JsValue.typeof = some "string"
        ∧ (profile.get "port").map JsValue.typeof = some "number"
        ∧ profile.get "network_id" = some (JsValue.str "*") := by
  refine ⟨rfl, fun name => ?_, _, rfl, rfl, rfl, rfl, rfl, rfl⟩
  have hn : module.exports.getPath ["networks"] = some (JsValue.obj [
      ("development", JsValue.obj [
        ("host", JsValue.str "localhost"),
        ("port", JsValue.num 7545),
        ("network_id", JsValue.str "*")])]) := rfl
  rw [hn, Option.some_bind, JsValue.get_isSome_iff_mem_keys]
  simp [JsValue.keys]

/-- C7, as stated, fails on its last clause: loading does mutate state. Run on
the fresh module record in the empty world, the body leaves a record that is not
the one it was given: `exports` held the empty object before and holds the three
fields after. -/
theorem load_mutates_module_record :
    freshModule.exports.keys = []
    ∧ (run program (⟨[], [], []⟩, freshModule)).map (fun state => state.2.exports.keys)
        = some ["networks", "compilers", "plugins"]
    ∧ run program (⟨[], [], []⟩, freshModule) ≠ some (⟨[], [], []⟩, freshModule) := by
  refine ⟨by decide, by decide, fun h => ?_⟩
  have hk := congrArg (Option.map (fun state : World × Module => state.2.exports.keys)) h
  revert hk
  decide

/-- C7, amended: the body of the file is one assignment of a literal, which
contains no read of the world. So for every world and every module record handed
in, loading returns; it leaves the world as it found it; of the module record it
changes the `exports` slot and nothing else; and the value it puts there is the
literal, the same for any two worlds and any two module records. -/
theorem load_independent_of_world :
    program = [Stmt.assignExports configExpr]
    ∧ configExpr.isLiteral = true
    ∧ (∀ (w : World) (m : Module), ∃ state, run program (w, m) = some state
        ∧ state.1 = w
        ∧ state.2.id = m.id
        ∧ state.2.filename = m.filename
        ∧ state.2.exports = module.exports)
    ∧ (∀ (w₁ w₂ : World) (m₁ m₂ : Module),
        (run program (w₁, m₁)).map (fun state => state.2.exports)
          = (run program (w₂, m₂)).map (fun state => state.2.exports))
    ∧ (∀ w : World, load w = some (w, module.exports))
    ∧ (∀ w₁ w₂ : World, (load w₁).map Prod.snd = (load w₂).map Prod.snd) := by
  have hrun : ∀ (w : World) (m : Module),
      run program (w, m) = some (w, { m with exports := module.exports }) := by
    intro w m
    simp [run, program, Stmt.exec, configExpr_eval]
  refine ⟨rfl, by decide, ?_, ?_, ?_, ?_⟩
  · intro w m
    exact ⟨_, hrun w m, rfl, rfl, rfl, rfl⟩
  · intro w₁ w₂ m₁ m₂
    rw [hrun, hrun]
    rfl
  · intro w
    simp [load, hrun]
  · intro w₁ w₂
    simp [load, hrun]

/-- C8: the development endpoint is a well-formed local TCP endpoint: the port
is the integer 7545, inside the TCP range 1 to 65535 and not below 1024, and the
host is the non-empty loopback name `"localhost"`. -/
theorem development_endpoint_well_formed :
    ∃ (host : String) (port : ℚ),
      module.exports.getPath ["networks", "development", "host"] = some (JsValue.str host)
      ∧ module.exports.getPath ["networks", "development", "port"] = some (JsValue.num port)
      ∧ (JsValue.num port).isInteger = true
      ∧ port = 7545
      ∧ 1 ≤ port ∧ port ≤ 65535
      ∧ 1024 ≤ port
      ∧ host ≠ ""
      ∧ host = "localhost" := by
  refine ⟨"localhost", 7545, rfl, rfl, by decide, rfl, ?_, ?_, ?_, by decide, rfl⟩ <;> norm_num

/-- C9: the plugin list is well-formed: it is an array of strings, it is not
empty, no name in it is the empty string, no name occurs twice, and so every
listed name occurs exactly once. -/
theorem plugins_well_formed :
    ∃ names : List String,
      (module.exports.get "plugins").bind JsValue.elements = some (names.map JsValue.str)
      ∧ names ≠ []
      ∧ (∀ n ∈ names, n ≠ "")
      ∧ names.Nodup
      ∧ ∀ n ∈ names, names.count n = 1 :=
  ⟨["truffle-contract-size"], rfl, by decide, by decide, by decide, by decide⟩

end TruffleConfig
